import Mathlib

/-!
# Verification of the Netlist-Generator core

Shallow embedding of the two core source files of the repository:

* `Program test/Netlist generator algorithm test/Methods Results Comparator.py`
  (netlist equivalence verifier, `compare_netlists` / `backtrack`), and
* `Program test/Netlist generator algorithm test/Method 2/Method 2.py`
  (node extraction: terminal resolution, first-pass node assignment,
  deterministic second-pass renumbering, netlist emission).

Python dictionaries are modelled as association lists (`List (k × v)`,
`List.lookup` returns the binding visible to Python code), Python sets of
object identities as lists of list indices, and numpy 2-D arrays as
`List (List Nat)` with explicit Python indexing semantics (negative indices
wrap; slices clamp).  The unbounded recursion of the Python `backtrack`
closure is driven by an explicit fuel argument; `compare_netlists` supplies
`length ground_truth` fuel, which is exactly the recursion depth the Python
code uses (the index grows by one per nested call and the recursion stops at
`len(ground_truth)`).
-/

namespace Comparator

/-- `class Component` of `Methods Results Comparator.py`: a label and the
list of node identifiers read from one netlist line. -/
structure Component where
  name : String
  nodes : List Int
deriving DecidableEq

instance : Inhabited Component := ⟨⟨"", []⟩⟩

/-- `is_set_match` (lines 15-19): `set(ground.nodes) == set(test.nodes)`. -/
def is_set_match (ground_component test_component : Component) : Bool :=
  ground_component.nodes.all (fun x => test_component.nodes.contains x) &&
    test_component.nodes.all (fun x => ground_component.nodes.contains x)

/-- The mapping update of the set-match branch (lines 55-57): for every
ground-truth node `g` of the matched component, `current_mapping[g] = g`.
Dictionary assignment is modelled by consing; `List.lookup` sees the newest
binding, as Python sees the overwritten value. -/
def setMatchUpdate (cur : List (Int × Int)) (gnodes : List Int) : List (Int × Int) :=
  gnodes.foldl (fun m g => (g, g) :: m) cur

/-- The per-index loop of the dynamic-mapping branch (lines 85-96), run on the
zipped node lists (the node counts were checked equal).  For each pair
`(g, t)`: if `g` has a conflicting entry in `locked_nodes` the loop breaks
with `valid_mapping = False`; otherwise `current_mapping[g] = t` is inserted
when `g` is not yet mapped.  Returns `(valid_mapping, current_mapping)`. -/
def tryDynamicMapping : List (Int × Int) → List (Int × Int) → List (Int × Int) →
    Bool × List (Int × Int)
  | [], cur, _ => (true, cur)
  | (g, t) :: rest, cur, locked =>
    match List.lookup g locked with
    | some l =>
      if l ≠ t then (false, cur)
      else tryDynamicMapping rest (if (List.lookup g cur).isSome then cur else (g, t) :: cur) locked
    | none =>
      tryDynamicMapping rest (if (List.lookup g cur).isSome then cur else (g, t) :: cur) locked

/-- `backtrack` (lines 30-109).  `used` is the set `used_components` of test
components already matched, represented by their indices in `test_netlist`
(Python stores the objects themselves and compares by identity; the netlist
reader creates one fresh object per line, so indices are a faithful
representation).  The mutate/recurse/restore discipline of the Python code is
modelled by trying each candidate with the extended state and falling back to
the unchanged state when the try fails, which is exactly what the
copy-then-restore code performs.  Step 1 is the set-match loop (lines 42-66),
step 2 the dynamic-mapping loop (lines 69-107). -/
def backtrack (fuel : Nat) (ground_truth test_netlist : List Component) (i : Nat)
    (used : List Nat) (cur locked : List (Int × Int)) : Bool :=
  if ground_truth.length ≤ i then true
  else
    match fuel with
    | 0 => false
    | fuel + 1 =>
      let gc := ground_truth.getD i default
      let phase1 := (List.range test_netlist.length).any (fun j =>
        if used.contains j then false
        else if is_set_match gc (test_netlist.getD j default) then
          backtrack fuel ground_truth test_netlist (i + 1) (j :: used)
            (setMatchUpdate cur gc.nodes) locked
        else false)
      if phase1 then true
      else
        (List.range test_netlist.length).any (fun j =>
          if used.contains j then false
          else if (test_netlist.getD j default).nodes.length = gc.nodes.length then
            let vm := tryDynamicMapping (gc.nodes.zip (test_netlist.getD j default).nodes)
              cur locked
            if vm.1 then
              backtrack fuel ground_truth test_netlist (i + 1) (j :: used) vm.2 locked
            else false
          else false)

/-- `compare_netlists` (lines 22-113): starts the search with empty
`locked_nodes`, `node_mapping` and `used_components`. -/
def compare_netlists (ground_truth test_netlist : List Component) : Bool :=
  backtrack ground_truth.length ground_truth test_netlist 0 [] [] []

end Comparator

namespace Comparator

/-! ## The `locked_nodes` dictionary is dead state

`compare_netlists` initialises `locked_nodes = {}` and no statement of the
program ever inserts into it; `backtrack` only reads it (lines 89-93) and
passes it through unchanged.  The following variants of the search have the
`locked_nodes` parameter and its conflict branch deleted; we prove they
compute the same result. -/

/-- `tryDynamicMapping` with the (unreachable) locked-conflict branch
removed: only the first-seen insertions into `current_mapping` remain. -/
def tryDynamicMappingNL : List (Int × Int) → List (Int × Int) → List (Int × Int)
  | [], cur => cur
  | (g, t) :: rest, cur =>
    tryDynamicMappingNL rest (if (List.lookup g cur).isSome then cur else (g, t) :: cur)

/-- `backtrack` with the `locked_nodes` parameter and its conflict check
removed. -/
def backtrackNL (fuel : Nat) (ground_truth test_netlist : List Component) (i : Nat)
    (used : List Nat) (cur : List (Int × Int)) : Bool :=
  if ground_truth.length ≤ i then true
  else
    match fuel with
    | 0 => false
    | fuel + 1 =>
      let gc := ground_truth.getD i default
      let phase1 := (List.range test_netlist.length).any (fun j =>
        if used.contains j then false
        else if is_set_match gc (test_netlist.getD j default) then
          backtrackNL fuel ground_truth test_netlist (i + 1) (j :: used)
            (setMatchUpdate cur gc.nodes)
        else false)
      if phase1 then true
      else
        (List.range test_netlist.length).any (fun j =>
          if used.contains j then false
          else if (test_netlist.getD j default).nodes.length = gc.nodes.length then
            backtrackNL fuel ground_truth test_netlist (i + 1) (j :: used)
              (tryDynamicMappingNL (gc.nodes.zip (test_netlist.getD j default).nodes) cur)
          else false)

/-- `compare_netlists` without the `locked_nodes` machinery. -/
def compare_netlistsNL (ground_truth test_netlist : List Component) : Bool :=
  backtrackNL ground_truth.length ground_truth test_netlist 0 [] []

theorem any_congrB {α : Type} {l : List α} {f g : α → Bool}
    (h : ∀ a ∈ l, f a = g a) : l.any f = l.any g := by
  induction l with
  | nil => rfl
  | cons a l ih =>
    simp only [List.any_cons]
    rw [h a (by simp), ih (fun b hb => h b (by simp [hb]))]

theorem tryDynamicMapping_locked_nil (ps : List (Int × Int)) :
    ∀ cur, tryDynamicMapping ps cur [] = (true, tryDynamicMappingNL ps cur) := by
  induction ps with
  | nil => intro cur; rfl
  | cons p rest ih =>
    intro cur
    obtain ⟨g, t⟩ := p
    simp only [tryDynamicMapping, tryDynamicMappingNL, List.lookup]
    exact ih _

theorem backtrack_locked_nil (fuel : Nat) :
    ∀ (gt test : List Component) (i : Nat) (used : List Nat) (cur : List (Int × Int)),
      backtrack fuel gt test i used cur [] = backtrackNL fuel gt test i used cur := by
  induction fuel with
  | zero =>
    intro gt test i used cur
    simp only [backtrack, backtrackNL]
  | succ fuel ih =>
    intro gt test i used cur
    simp only [backtrack, backtrackNL]
    refine if_congr Iff.rfl rfl ?_
    have h1 : ((List.range test.length).any (fun j =>
        if used.contains j then false
        else if is_set_match (gt.getD i default) (test.getD j default) then
          backtrack fuel gt test (i + 1) (j :: used)
            (setMatchUpdate cur (gt.getD i default).nodes) []
        else false)) =
        ((List.range test.length).any (fun j =>
        if used.contains j then false
        else if is_set_match (gt.getD i default) (test.getD j default) then
          backtrackNL fuel gt test (i + 1) (j :: used)
            (setMatchUpdate cur (gt.getD i default).nodes)
        else false)) := by
      refine any_congrB (fun j _ => ?_)
      rw [ih]
    rw [h1]
    refine if_congr Iff.rfl rfl ?_
    refine any_congrB (fun j _ => ?_)
    dsimp only
    rw [tryDynamicMapping_locked_nil, ih]
    simp

end Comparator

namespace Comparator

/-! ## What the search actually decides

Because `locked_nodes` is always empty, the dynamic-mapping branch accepts
every unused test component whose node count matches, and `current_mapping`
never influences the boolean result.  The search therefore succeeds exactly
when the ground-truth components can be paired, in order, with distinct test
components such that each pair either has equal node sets or merely equal
node counts. -/

/-- The acceptance condition the search applies to one candidate pair:
either a set match (step 1) or an equal node count (step 2). -/
def pairOK (ground_component test_component : Component) : Bool :=
  is_set_match ground_component test_component ||
    decide (test_component.nodes.length = ground_component.nodes.length)

/-- There is a choice `sel` of distinct, not-yet-used test-component indices,
one for each remaining ground-truth component `i, i+1, …`, whose pairs all
satisfy `pairOK`. -/
def MatchingFrom (gt test : List Component) (i : Nat) (used : List Nat) : Prop :=
  ∃ sel : List Nat, sel.length = gt.length - i ∧ sel.Nodup ∧
    (∀ j ∈ sel, j < test.length ∧ j ∉ used) ∧
    ∀ k, k < sel.length →
      pairOK (gt.getD (i + k) default) (test.getD (sel.getD k 0) default) = true

theorem MatchingFrom.base {gt test : List Component} {i : Nat} {used : List Nat}
    (hle : gt.length ≤ i) : MatchingFrom gt test i used := by
  refine ⟨[], ?_, List.nodup_nil, ?_, ?_⟩
  · simp [Nat.sub_eq_zero_of_le hle]
  · intro j hj; simp at hj
  · intro k hk; simp at hk

theorem MatchingFrom.cons {gt test : List Component} {i : Nat} {used : List Nat} {j : Nat}
    (hi : i < gt.length) (hj : j < test.length) (hju : j ∉ used)
    (hpair : pairOK (gt.getD i default) (test.getD j default) = true)
    (h : MatchingFrom gt test (i + 1) (j :: used)) : MatchingFrom gt test i used := by
  obtain ⟨sel, hlen, hnd, havoid, hpk⟩ := h
  refine ⟨j :: sel, ?_, ?_, ?_, ?_⟩
  · simp only [List.length_cons, hlen]; omega
  · refine List.nodup_cons.mpr ⟨?_, hnd⟩
    intro hmem
    exact (havoid _ hmem).2 (by simp)
  · intro j' hj'
    rcases List.mem_cons.mp hj' with rfl | hj'
    · exact ⟨hj, hju⟩
    · obtain ⟨h1, h2⟩ := havoid _ hj'
      refine ⟨h1, fun hc => h2 (by simp [hc])⟩
  · intro k hk
    cases k with
    | zero => simpa using hpair
    | succ k =>
      have hk' : k < sel.length := by simpa using hk
      have := hpk k hk'
      rw [List.getD_cons_succ]
      have harith : i + (k + 1) = i + 1 + k := by omega
      rw [harith]
      exact this

theorem MatchingFrom.destruct {gt test : List Component} {i : Nat} {used : List Nat}
    (hi : i < gt.length) (h : MatchingFrom gt test i used) :
    ∃ j, j < test.length ∧ j ∉ used ∧
      pairOK (gt.getD i default) (test.getD j default) = true ∧
      MatchingFrom gt test (i + 1) (j :: used) := by
  obtain ⟨sel, hlen, hnd, havoid, hpk⟩ := h
  match sel, hlen with
  | j :: sel, hlen =>
    obtain ⟨hjsel, hnd'⟩ := List.nodup_cons.mp hnd
    obtain ⟨hj, hju⟩ := havoid j (by simp)
    refine ⟨j, hj, hju, by simpa using hpk 0 (by simp), ?_⟩
    refine ⟨sel, by simp at hlen; omega, hnd', ?_, ?_⟩
    · intro j' hj'
      obtain ⟨h1, h2⟩ := havoid j' (by simp [hj'])
      refine ⟨h1, ?_⟩
      intro hc
      rcases List.mem_cons.mp hc with rfl | hc
      · exact hjsel hj'
      · exact h2 hc
    · intro k hk
      have := hpk (k + 1) (by simpa using hk)
      rw [List.getD_cons_succ] at this
      have harith : i + (k + 1) = i + 1 + k := by omega
      rw [harith] at this
      exact this
  | [], hlen => simp at hlen; omega

theorem backtrackNL_sound (fuel : Nat) :
    ∀ (gt test : List Component) (i : Nat) (used : List Nat) (cur : List (Int × Int)),
      backtrackNL fuel gt test i used cur = true → MatchingFrom gt test i used := by
  induction fuel with
  | zero =>
    intro gt test i used cur h
    by_cases hle : gt.length ≤ i
    · exact MatchingFrom.base hle
    · simp [backtrackNL, hle] at h
  | succ fuel ih =>
    intro gt test i used cur h
    by_cases hle : gt.length ≤ i
    · exact MatchingFrom.base hle
    · have hi : i < gt.length := by omega
      simp only [backtrackNL, if_neg hle] at h
      split at h
      · -- step 1 (set match) found a full solution
        next hp =>
        rw [List.any_eq_true] at hp
        obtain ⟨j, hjr, hbody⟩ := hp
        split at hbody
        · simp at hbody
        · split at hbody
          · next hcont hm =>
            refine MatchingFrom.cons hi (List.mem_range.mp hjr) ?_
              (by unfold pairOK; rw [hm, Bool.true_or]) (ih _ _ _ _ _ hbody)
            intro hmem
            exact hcont (by simp [hmem])
          · simp at hbody
      · -- step 2 (dynamic mapping) found a full solution
        rw [List.any_eq_true] at h
        obtain ⟨j, hjr, hbody⟩ := h
        split at hbody
        · simp at hbody
        · split at hbody
          · next hcont hlen =>
            refine MatchingFrom.cons hi (List.mem_range.mp hjr) ?_
              (by unfold pairOK; rw [decide_eq_true hlen, Bool.or_true]) (ih _ _ _ _ _ hbody)
            intro hmem
            exact hcont (by simp [hmem])
          · simp at hbody

theorem backtrackNL_complete (fuel : Nat) :
    ∀ (gt test : List Component) (i : Nat) (used : List Nat),
      gt.length - i ≤ fuel → MatchingFrom gt test i used →
      ∀ cur, backtrackNL fuel gt test i used cur = true := by
  induction fuel with
  | zero =>
    intro gt test i used hf h cur
    have hle : gt.length ≤ i := by omega
    simp [backtrackNL, hle]
  | succ fuel ih =>
    intro gt test i used hf h cur
    by_cases hle : gt.length ≤ i
    · simp [backtrackNL, hle]
    · have hi : i < gt.length := by omega
      obtain ⟨j, hj, hju, hpair, h'⟩ := h.destruct hi
      simp only [backtrackNL, if_neg hle]
      have hpair' := hpair
      unfold pairOK at hpair'
      rcases Bool.or_eq_true_iff.mp hpair' with hm | hlen2
      · -- the pair is a set match, so step 1 succeeds at candidate `j`
        have hph : ((List.range test.length).any (fun j =>
            if used.contains j then false
            else if is_set_match (gt.getD i default) (test.getD j default) then
              backtrackNL fuel gt test (i + 1) (j :: used)
                (setMatchUpdate cur (gt.getD i default).nodes)
            else false)) = true := by
          rw [List.any_eq_true]
          refine ⟨j, List.mem_range.mpr hj, ?_⟩
          rw [if_neg (by simp [hju]), if_pos hm]
          exact ih _ _ _ _ (by omega) h' _
        rw [if_pos hph]
      · -- the pair has equal node counts, so step 2 succeeds if step 1 fails
        split
        · rfl
        · rw [List.any_eq_true]
          refine ⟨j, List.mem_range.mpr hj, ?_⟩
          rw [if_neg (by simp [hju]), if_pos (by exact of_decide_eq_true hlen2)]
          exact ih _ _ _ _ (by omega) h' _

end Comparator

namespace Comparator

theorem pairOK_refl (c : Component) : pairOK c c = true := by
  have hm : is_set_match c c = true := by simp [is_set_match]
  unfold pairOK
  rw [hm, Bool.true_or]

/-! ## The spec's own definition of equivalence, for comparison

The specification (§4.4) defines equivalence as the existence of a single
assignment of test-netlist node IDs to ground-truth node IDs together with a
one-to-one pairing of ground-truth components to distinct test components
under which each pair's node sets correspond.  The following decidable
definition follows those words (it is deliberately written from the spec,
not from the code, to compare the two). -/

/-- All node identifiers occurring in a netlist. -/
def nodeIdsOf (nl : List Component) : List Int := (nl.flatMap (·.nodes)).dedup

/-- All assignments (as association lists) from the given keys into the given
values. -/
def allAssignments : List Int → List Int → List (List (Int × Int))
  | [], _ => [[]]
  | k :: ks, vs => (allAssignments ks vs).flatMap (fun m => vs.map (fun v => (k, v) :: m))

/-- Apply an assignment to a node identifier. -/
def applyAssign (m : List (Int × Int)) (x : Int) : Int := (List.lookup x m).getD x

/-- Set equality of two node-identifier lists. -/
def sameNodeSet (a b : List Int) : Bool :=
  a.all (fun x => b.contains x) && b.all (fun x => a.contains x)

/-- All injective sequences of length `n` with entries drawn from `ks`. -/
def injectionsInto : Nat → List Nat → List (List Nat)
  | 0, _ => [[]]
  | n + 1, ks =>
    ks.flatMap (fun j => (injectionsInto n (ks.filter (fun x => x ≠ j))).map (fun r => j :: r))

/-- Spec-worded equivalence (§4.4): some one-to-one pairing of ground-truth
components with distinct test components and some single node-ID assignment
from test IDs to ground-truth IDs make every pair's node sets correspond. -/
def specEquivalent (gt test : List Component) : Bool :=
  (injectionsInto gt.length (List.range test.length)).any (fun p =>
    (allAssignments (nodeIdsOf test) (nodeIdsOf gt)).any (fun m =>
      (List.range gt.length).all (fun i =>
        sameNodeSet ((test.getD (p.getD i 0) default).nodes.map (applyAssign m))
          (gt.getD i default).nodes)))

/-- **C1, counterexample.**  The claim asserts that
`verify(N, N'') = false` for `N = [("R1",[1,2]), ("R2",[2,3])]` and
`N'' = [("R1",[1,2]), ("R2",[1,3])]`, and that `verify` returns true only
when a consistent node-ID assignment plus one-to-one component pairing
exists.  Both parts fail on the code: the program returns `true` on
`(N, N'')` — and in fact `N''` *is* equivalent to `N` under the spec's own
definition, via the assignment `1 ↦ 2, 2 ↦ 1, 3 ↦ 3` — and the program also
returns `true` on `[("A",[1,2])]` vs `[("A",[3,3])]`, where no node-set
correspondence exists at all. -/
theorem c1_counterexample :
    compare_netlists [⟨"R1", [1, 2]⟩, ⟨"R2", [2, 3]⟩]
        [⟨"R1", [1, 2]⟩, ⟨"R2", [1, 3]⟩] = true ∧
    specEquivalent [⟨"R1", [1, 2]⟩, ⟨"R2", [2, 3]⟩]
        [⟨"R1", [1, 2]⟩, ⟨"R2", [1, 3]⟩] = true ∧
    compare_netlists [⟨"A", [1, 2]⟩] [⟨"A", [3, 3]⟩] = true ∧
    specEquivalent [⟨"A", [1, 2]⟩] [⟨"A", [3, 3]⟩] = false := by decide

/-- **C1, amended.**  `verify(N, N'')` returns `true` (the two netlists are
in fact equivalent under the spec's general definition), and in general
`verify` returns `true` exactly when the ground-truth components can be
paired one-to-one with distinct test components such that every pair either
has equal node sets or merely equal node counts; the consistency of the
induced node-ID assignment is not checked by the code. -/
theorem c1_amended_verify_characterization :
    compare_netlists [⟨"R1", [1, 2]⟩, ⟨"R2", [2, 3]⟩]
        [⟨"R1", [1, 2]⟩, ⟨"R2", [1, 3]⟩] = true ∧
    ∀ gt test : List Component,
      compare_netlists gt test = true ↔ MatchingFrom gt test 0 [] := by
  refine ⟨by decide, fun gt test => ?_⟩
  rw [compare_netlists, backtrack_locked_nil]
  constructor
  · exact backtrackNL_sound _ _ _ _ _ _
  · intro h
    exact backtrackNL_complete _ _ _ _ _ (by omega) h []

/-- **C3.**  `verify(N, N) = true` for every well-formed netlist `N`: each
component set-matches its own copy at the same position, so the search
commits the identity pairing. -/
theorem c3_verify_reflexive (N : List Component) : compare_netlists N N = true := by
  rw [compare_netlists, backtrack_locked_nil]
  refine backtrackNL_complete N.length N N 0 [] (by omega) ?_ []
  refine ⟨List.range N.length, by simp, List.nodup_range _, ?_, ?_⟩
  · intro j hj
    exact ⟨List.mem_range.mp hj, by simp⟩
  · intro k hk
    have hk' : k < N.length := by simpa using hk
    have h1 : (List.range N.length).getD k 0 = k := by
      rw [List.getD_eq_getElem _ _ (by simpa using hk)]
      simp
    rw [h1, Nat.zero_add]
    exact pairOK_refl _

/-- **C4.**  `verify` accepts the consistently renumbered netlist
`N' = [("R1",[9,8]), ("R2",[8,7])]` against `N = [("R1",[1,2]), ("R2",[2,3])]`. -/
theorem c4_verify_accepts_renumbering :
    compare_netlists [⟨"R1", [1, 2]⟩, ⟨"R2", [2, 3]⟩]
        [⟨"R1", [9, 8]⟩, ⟨"R2", [8, 7]⟩] = true := by decide

/-- **C10.**  `locked_nodes` is dead state: the dynamic-mapping loop never
reports an invalid mapping when `locked_nodes` is empty (so its rejection
branch is unreachable), `backtrack` started with an empty `locked_nodes`
computes the same result as the search with the `locked_nodes` parameter and
its conflict branch deleted, and consequently so does `compare_netlists`,
which starts the search with `locked_nodes = {}`; no ground-truth node is
ever locked to a test node. -/
theorem c10_locked_nodes_stays_empty :
    (∀ (ps cur : List (Int × Int)), (tryDynamicMapping ps cur []).1 = true) ∧
    (∀ (fuel : Nat) (gt test : List Component) (i : Nat) (used : List Nat)
      (cur : List (Int × Int)),
      backtrack fuel gt test i used cur [] = backtrackNL fuel gt test i used cur) ∧
    (∀ gt test : List Component, compare_netlists gt test = compare_netlistsNL gt test) := by
  refine ⟨?_, ?_, ?_⟩
  · intro ps cur
    rw [tryDynamicMapping_locked_nil]
  · intro fuel gt test i used cur
    exact backtrack_locked_nil fuel gt test i used cur
  · intro gt test
    exact backtrack_locked_nil gt.length gt test 0 [] []

end Comparator

namespace Method2

/-!
Embedding of the netlist-producing core of `Method 2.py`
(`is_point_connected_or_nearest`, `find_nearest_edge` and the netlist part of
`overlay_and_find_nodes_with_connected_regions`).  2-D numpy arrays
(`masked_edges`, `labeled_edges`) are `List (List Nat)`; scalar numpy
indexing `a[y, x]` follows Python semantics, where a negative index wraps
around once (`a[-1]` is the last element) and an index below `-len` raises
`IndexError` (modelled as background `0`; no theorem below depends on that
branch).  Slices clamp and never raise.  The connected-component labelling
itself (`scipy.ndimage.label`) is an external collaborator: `labeled_edges`
and `num_regions` are taken as inputs, with their guaranteed properties
(labels bounded by `num_regions`, positive labels exactly on mask pixels)
as explicit hypotheses where a theorem needs them.
-/

/-- A 2-D array of pixel values. -/
def Grid := List (List Nat)

/-- `shape[1]` of a numpy array: the (common) row length. -/
def shape1 (g : Grid) : Nat := (g.headD []).length

/-- Python/numpy scalar indexing into one row: a nonnegative index reads
directly, a negative index wraps once from the end.  (An index below
`-len` raises `IndexError` in Python; here it reads background `0`.) -/
def pyGet (row : List Nat) (i : Int) : Nat :=
  if 0 ≤ i then row.getD i.toNat 0
  else if (-i).toNat ≤ row.length then row.getD (row.length - (-i).toNat) 0
  else 0

/-- Python/numpy row selection, with the same negative-index semantics. -/
def pyRow (g : Grid) (i : Int) : List Nat :=
  if 0 ≤ i then g.getD i.toNat []
  else if (-i).toNat ≤ g.length then g.getD (g.length - (-i).toNat) []
  else []

/-- `a[y, x]` for a 2-D numpy array. -/
def pyGet2 (g : Grid) (y x : Int) : Nat := pyGet (pyRow g y) x

/-- Effective start of the slice `max(0, c - half_size)` with
`half_size = 1` (`kernel_size = 3`, the only size the program uses). -/
def sliceLo (c : Int) : Nat := (max 0 (c - 1)).toNat

/-- Effective stop of the slice `min(n, c + half_size + 1)`: a Python slice
bound that is still negative counts from the end and clamps at `0`. -/
def sliceHi (n : Nat) (c : Int) : Nat :=
  let stop : Int := min (n : Int) (c + 2)
  if 0 ≤ stop then stop.toNat else (max 0 ((n : Int) + stop)).toNat

/-- `np.any(neighborhood > 0)` over the sliced rows `[ylo, yhi)` and columns
`[xlo, xhi)` of `g`. -/
def anyInSlice (g : Grid) (ylo yhi xlo xhi : Nat) : Bool :=
  (List.range' ylo (yhi - ylo)).any (fun y =>
    (List.range' xlo (xhi - xlo)).any (fun x => decide (0 < (g.getD y []).getD x 0)))

/-- `np.argwhere(masked_edges > 0)`: all `(y, x)` with a positive pixel, in
row-major order. -/
def edgePoints (g : Grid) : List (Nat × Nat) :=
  (List.range g.length).flatMap (fun y =>
    ((List.range (g.getD y []).length).filter
      (fun x => decide (0 < (g.getD y []).getD x 0))).map (fun x => (y, x)))

/-- Squared Euclidean distance from the query point `(py, px)` to an edge
point `(y, x)`; `np.argmin` over Euclidean distances equals the argmin over
their squares. -/
def dist2 (px py : Int) (p : Nat × Nat) : Int :=
  (py - (p.1 : Int)) ^ 2 + (px - (p.2 : Int)) ^ 2

/-- `np.argmin` over a list keyed by `key`: the first element attaining the
minimum, `none` on an empty list. -/
def argminFirst {α : Type} (key : α → Int) : List α → Option α
  | [] => none
  | a :: rest =>
    match argminFirst key rest with
    | none => some a
    | some b => if key b < key a then some b else some a

/-- `find_nearest_edge` (lines 66-73): the first (row-major) edge point of
minimal Euclidean distance to `(py, px)`, or `None` when the mask has no
edge point. -/
def find_nearest_edge (masked_edges : Grid) (px py : Int) : Option (Nat × Nat) :=
  argminFirst (dist2 px py) (edgePoints masked_edges)

/-- `is_point_connected_or_nearest` (lines 75-91) with the default
`kernel_size = 3`: if any pixel of the 3×3 neighborhood slice is positive,
the point itself is returned as the connection point; otherwise the nearest
edge point (as `(x, y)`); otherwise no connection. -/
def is_point_connected_or_nearest (masked_edges : Grid) (px py : Int) :
    Bool × Option (Int × Int) :=
  if anyInSlice masked_edges (sliceLo py) (sliceHi masked_edges.length py)
      (sliceLo px) (sliceHi (shape1 masked_edges) px) then
    (true, some (px, py))
  else
    match find_nearest_edge masked_edges px py with
    | some p => (true, some ((p.2 : Int), (p.1 : Int)))
    | none => (false, none)

/-- One detected component as consumed by
`overlay_and_find_nodes_with_connected_regions`: its label and its
`connection_points` (`[x, y]` pixel coordinates).  The bounding box is used
only upstream (`mask_components`) and is omitted. -/
structure Component where
  label : String
  connection_points : List (Int × Int)

instance : Inhabited Component := ⟨⟨"", []⟩⟩

/-- `component["label"].upper()` (ASCII labels). -/
def pyUpper (s : String) : String := ⟨s.data.map Char.toUpper⟩

/-- The per-terminal logic of the output loops (lines 187-202 and 262-273):
skip the terminal when `py >= labeled_edges.shape[0]` or
`px >= labeled_edges.shape[1]`; otherwise resolve the connection point via
`is_point_connected_or_nearest` on `masked_edges`, read
`labeled_edges[connected_py, connected_px]`, and keep the region only when
it is positive. -/
def resolveTerminal (masked labeled : Grid) (px py : Int) : Option Nat :=
  if (labeled.length : Int) ≤ py ∨ (shape1 labeled : Int) ≤ px then none
  else
    match is_point_connected_or_nearest masked px py with
    | (true, some cp) =>
      let region := pyGet2 labeled cp.2 cp.1
      if 0 < region then some region else none
    | _ => none

/-- The regions the terminals of one component resolve to, in terminal
order. -/
def connectedRegions (masked labeled : Grid) (c : Component) : List Nat :=
  c.connection_points.filterMap (fun p => resolveTerminal masked labeled p.1 p.2)

/-- The mutable first-pass state: the dictionary `region_to_node` and the
counter `current_node_id` (lines 154-156). -/
structure Pass1State where
  region_to_node : List (Nat × Nat)
  current_node_id : Nat

/-- The terminal loop of the first output pass (lines 187-202): each
resolved region receives the next sequential node ID on first touch, and the
terminal appends its region's node ID to `connected_nodes`. -/
def procPoints (masked labeled : Grid) : List (Int × Int) → Pass1State →
    Pass1State × List Nat
  | [], st => (st, [])
  | p :: ps, st =>
    match resolveTerminal masked labeled p.1 p.2 with
    | none => procPoints masked labeled ps st
    | some region =>
      let st' := if (List.lookup region st.region_to_node).isSome then st
        else ⟨st.region_to_node ++ [(region, st.current_node_id)], st.current_node_id + 1⟩
      let node_id := (List.lookup region st'.region_to_node).getD 0
      let r := procPoints masked labeled ps st'
      (r.1, node_id :: r.2)

/-- The component loop of the first output pass (lines 181-208): `GND`
components are skipped, `connected_nodes = list(set(connected_nodes))`
deduplicates (Python's set order is unspecified; `List.dedup` picks one
duplicate-free order, and no property below depends on the order), and a
line `label node…` is emitted only when the result is nonempty. -/
def firstPassLines (masked labeled : Grid) : List Component → Pass1State →
    List (String × List Nat) × Pass1State
  | [], st => ([], st)
  | c :: cs, st =>
    if pyUpper c.label = "GND" then firstPassLines masked labeled cs st
    else
      let r := procPoints masked labeled c.connection_points st
      let connected_nodes := r.2.dedup
      let rest := firstPassLines masked labeled cs r.1
      (if connected_nodes.isEmpty then rest.1 else (c.label, connected_nodes) :: rest.1,
        rest.2)

/-- `np.argwhere(labeled_edges == region)`: the pixels of one region in
row-major order. -/
def pixelsOf (g : Grid) (region : Nat) : List (Nat × Nat) :=
  (List.range g.length).flatMap (fun y =>
    ((List.range (g.getD y []).length).filter
      (fun x => decide ((g.getD y []).getD x 0 = region))).map (fun x => (y, x)))

/-- Row-major (`y`, then `x`) comparison of pixel coordinates, the key of
`np.lexsort((pixels[:, 1], pixels[:, 0]))` and of the `sorted(...)` call. -/
def lexLe (a b : Nat × Nat) : Bool :=
  decide (a.1 < b.1) || (decide (a.1 = b.1) && decide (a.2 ≤ b.2))

/-- Stable insertion of `a` into a sorted list: `a` goes before the first
element it compares `le` to. -/
def insSorted {α : Type} (le : α → α → Bool) (a : α) : List α → List α
  | [] => [a]
  | b :: bs => if le a b then a :: b :: bs else b :: insSorted le a bs

/-- A stable sort (insertion sort); Python's `sorted` and `np.lexsort` are
stable sorts by their keys. -/
def stableSort {α : Type} (le : α → α → Bool) : List α → List α
  | [] => []
  | a :: as => insSorted le a (stableSort le as)

/-- The top-left-most pixel of a region: the first pixel of
`np.argwhere(labeled_edges == region)` after `np.lexsort` by `(y, then x)`
(line 220), `none` when the region has no pixel. -/
def top_left_pixel (labeled : Grid) (region : Nat) : Option (Nat × Nat) :=
  (stableSort lexLe (pixelsOf labeled region)).head?

/-- Lines 216-221: for every region `1 … num_regions` with at least one
pixel, its top-left-most pixel — the first pixel after sorting by
`(y, then x)`. -/
def region_top_left (labeled : Grid) (num_regions : Nat) : List (Nat × (Nat × Nat)) :=
  (List.range' 1 num_regions).filterMap (fun region =>
    match top_left_pixel labeled region with
    | some p => some (region, p)
    | none => none)

/-- Line 224: regions sorted by the `(y, x)` of their top-left pixel. -/
def sorted_regions (labeled : Grid) (num_regions : Nat) : List (Nat × (Nat × Nat)) :=
  stableSort (fun a b => lexLe a.2 b.2) (region_top_left labeled num_regions)

/-- Lines 227-232: walk the sorted regions and give each region that is a
key of `region_to_node` (here: a member of `touched`) the next new node ID,
starting from `new_node_id = 1`. -/
def new_region_to_node_from : List (Nat × (Nat × Nat)) → List Nat → Nat →
    List (Nat × Nat)
  | [], _, _ => []
  | rp :: rest, touched, next =>
    if touched.contains rp.1 then (rp.1, next) :: new_region_to_node_from rest touched (next + 1)
    else new_region_to_node_from rest touched next

/-- The second-pass map `new_region_to_node`. -/
def new_region_to_node (labeled : Grid) (num_regions : Nat) (touched : List Nat) :
    List (Nat × Nat) :=
  new_region_to_node_from (sorted_regions labeled num_regions) touched 1

/-- The per-terminal logic of the adjusted output pass (lines 262-273):
resolve as before, then keep the node only when the region is a key of
`new_region_to_node`. -/
def adjNodes (masked labeled : Grid) (new_map : List (Nat × Nat)) (c : Component) :
    List Nat :=
  c.connection_points.filterMap (fun p =>
    match resolveTerminal masked labeled p.1 p.2 with
    | some region => List.lookup region new_map
    | none => none)

/-- The component loop of the adjusted output pass (lines 256-279). -/
def adjustedLines (masked labeled : Grid) (new_map : List (Nat × Nat)) :
    List Component → List (String × List Nat)
  | [] => []
  | c :: cs =>
    if pyUpper c.label = "GND" then adjustedLines masked labeled new_map cs
    else
      let d := (adjNodes masked labeled new_map c).dedup
      if d.isEmpty then adjustedLines masked labeled new_map cs
      else (c.label, d) :: adjustedLines masked labeled new_map cs

/-- The two text netlists written by
`overlay_and_find_nodes_with_connected_regions`: the first-pass file and the
`_adjusted` file (file I/O and the visualization images are external
side effects and carry no netlist content). -/
def method2Outputs (masked labeled : Grid) (num_regions : Nat)
    (components : List Component) :
    List (String × List Nat) × List (String × List Nat) :=
  let first := firstPassLines masked labeled components ⟨[], 1⟩
  let touched := first.2.region_to_node.map Prod.fst
  let out2 := adjustedLines masked labeled
    (new_region_to_node labeled num_regions touched) components
  (first.1, out2)

end Method2

namespace Method2

/-! ## Characterization of the two emission loops -/

/-- Every resolved terminal appends exactly one node ID: the node list a
component collects has one entry per resolved terminal. -/
theorem procPoints_length (masked labeled : Grid) (ps : List (Int × Int)) :
    ∀ st, (procPoints masked labeled ps st).2.length =
      (ps.filterMap (fun p => resolveTerminal masked labeled p.1 p.2)).length := by
  induction ps with
  | nil => intro st; rfl
  | cons p ps ih =>
    intro st
    simp only [procPoints, List.filterMap_cons]
    cases h : resolveTerminal masked labeled p.1 p.2 with
    | none => exact ih st
    | some region =>
      simp only [List.length_cons]
      rw [ih]

/-- A component collects no nodes exactly when none of its terminals
resolves. -/
theorem procPoints_nil_iff (masked labeled : Grid) (c : Component) (st : Pass1State) :
    (procPoints masked labeled c.connection_points st).2 = [] ↔
      connectedRegions masked labeled c = [] := by
  constructor
  · intro h
    have := procPoints_length masked labeled c.connection_points st
    rw [h] at this
    simp only [List.length_nil] at this
    exact (List.length_eq_zero.mp this.symm)
  · intro h
    have := procPoints_length masked labeled c.connection_points st
    rw [connectedRegions] at h
    rw [h] at this
    simp only [List.length_nil] at this
    exact List.length_eq_zero.mp this

/-- The Boolean condition under which the first pass emits a line for a
component: not a ground component, and at least one terminal resolves. -/
def emitted1 (masked labeled : Grid) (c : Component) : Bool :=
  !decide (pyUpper c.label = "GND") && !(connectedRegions masked labeled c).isEmpty

/-- The labels of the first-pass netlist are exactly the labels of the
non-`GND` components with at least one resolved terminal, in order. -/
theorem firstPassLines_labels (masked labeled : Grid) (cs : List Component) :
    ∀ st, (firstPassLines masked labeled cs st).1.map Prod.fst =
      (cs.filter (emitted1 masked labeled)).map Component.label := by
  induction cs with
  | nil => intro st; rfl
  | cons c cs ih =>
    intro st
    simp only [firstPassLines]
    by_cases hg : pyUpper c.label = "GND"
    · rw [if_pos hg]
      have he : emitted1 masked labeled c = false := by
        simp [emitted1, hg]
      rw [List.filter_cons, he]
      simp only [Bool.false_eq_true, if_false]
      exact ih st
    · rw [if_neg hg]
      by_cases hn : connectedRegions masked labeled c = []
      · have hpe : (procPoints masked labeled c.connection_points st).2 = [] :=
          (procPoints_nil_iff masked labeled c st).mpr hn
        have he : emitted1 masked labeled c = false := by
          simp [emitted1, hn]
        rw [List.filter_cons, he]
        simp only [Bool.false_eq_true, if_false]
        simp only [hpe, List.dedup_nil, List.isEmpty_nil, if_true]
        exact ih _
      · have hpe : (procPoints masked labeled c.connection_points st).2 ≠ [] := by
          intro hc
          exact hn ((procPoints_nil_iff masked labeled c st).mp hc)
        have hde : ((procPoints masked labeled c.connection_points st).2.dedup).isEmpty = false := by
          rw [Bool.eq_false_iff]
          intro hc
          exact hpe (List.dedup_eq_nil _ |>.mp (List.isEmpty_iff.mp hc))
        have he : emitted1 masked labeled c = true := by
          simp [emitted1, hg, hn]
        rw [List.filter_cons, he]
        simp only [if_true]
        simp only [hde, Bool.false_eq_true, if_false, List.map_cons]
        rw [ih]

end Method2

namespace Method2

/-- Every emitted first-pass line has a nonempty, duplicate-free node
list. -/
theorem firstPassLines_entries (masked labeled : Grid) (cs : List Component) :
    ∀ st e, e ∈ (firstPassLines masked labeled cs st).1 → e.2 ≠ [] ∧ e.2.Nodup := by
  induction cs with
  | nil => intro st e he; simp [firstPassLines] at he
  | cons c cs ih =>
    intro st e he
    simp only [firstPassLines] at he
    by_cases hg : pyUpper c.label = "GND"
    · rw [if_pos hg] at he
      exact ih st e he
    · rw [if_neg hg] at he
      by_cases hde : ((procPoints masked labeled c.connection_points st).2.dedup).isEmpty
      · rw [if_pos hde] at he
        exact ih _ e he
      · rw [if_neg hde] at he
        rcases List.mem_cons.mp he with rfl | he
        · refine ⟨?_, List.nodup_dedup _⟩
          intro hc
          rw [List.isEmpty_iff] at hde
          exact hde hc
        · exact ih _ e he

/-- The Boolean condition under which the adjusted pass emits a line. -/
def emitted2 (masked labeled : Grid) (new_map : List (Nat × Nat)) (c : Component) : Bool :=
  !decide (pyUpper c.label = "GND") && !(adjNodes masked labeled new_map c).isEmpty

/-- The labels of the adjusted netlist are exactly the labels of the
non-`GND` components with at least one terminal resolving to a region that
received a final node ID, in order. -/
theorem adjustedLines_labels (masked labeled : Grid) (new_map : List (Nat × Nat))
    (cs : List Component) :
    (adjustedLines masked labeled new_map cs).map Prod.fst =
      (cs.filter (emitted2 masked labeled new_map)).map Component.label := by
  induction cs with
  | nil => rfl
  | cons c cs ih =>
    simp only [adjustedLines]
    by_cases hg : pyUpper c.label = "GND"
    · rw [if_pos hg, List.filter_cons]
      have he : emitted2 masked labeled new_map c = false := by simp [emitted2, hg]
      rw [he]
      simp only [Bool.false_eq_true, if_false]
      exact ih
    · rw [if_neg hg]
      by_cases hn : adjNodes masked labeled new_map c = []
      · have hde : ((adjNodes masked labeled new_map c).dedup).isEmpty = true := by
          rw [List.isEmpty_iff, List.dedup_eq_nil]
          exact hn
        rw [if_pos hde, List.filter_cons]
        have he : emitted2 masked labeled new_map c = false := by simp [emitted2, hn]
        rw [he]
        simp only [Bool.false_eq_true, if_false]
        exact ih
      · have hde : ((adjNodes masked labeled new_map c).dedup).isEmpty = false := by
          rw [Bool.eq_false_iff]
          intro hc
          exact hn (List.dedup_eq_nil _ |>.mp (List.isEmpty_iff.mp hc))
        rw [hde, List.filter_cons]
        have he : emitted2 masked labeled new_map c = true := by
          simp only [emitted2, Bool.and_eq_true, Bool.not_eq_true']
          refine ⟨by simpa using hg, by simpa [List.isEmpty_iff] using hn⟩
        rw [he]
        simp only [Bool.false_eq_true, if_false, if_true, List.map_cons]
        rw [ih]

/-- Every emitted adjusted line has a nonempty, duplicate-free node list. -/
theorem adjustedLines_entries (masked labeled : Grid) (new_map : List (Nat × Nat))
    (cs : List Component) :
    ∀ e ∈ adjustedLines masked labeled new_map cs, e.2 ≠ [] ∧ e.2.Nodup := by
  induction cs with
  | nil => intro e he; simp [adjustedLines] at he
  | cons c cs ih =>
    intro e he
    simp only [adjustedLines] at he
    by_cases hg : pyUpper c.label = "GND"
    · rw [if_pos hg] at he
      exact ih e he
    · rw [if_neg hg] at he
      by_cases hde : ((adjNodes masked labeled new_map c).dedup).isEmpty
      · rw [if_pos hde] at he
        exact ih e he
      · rw [if_neg hde] at he
        rcases List.mem_cons.mp he with rfl | he
        · refine ⟨?_, List.nodup_dedup _⟩
          intro hc
          rw [List.isEmpty_iff] at hde
          exact hde hc
        · exact ih e he

/-- Removing the `GND` components from the input changes nothing in the
first pass: neither the emitted lines nor the final state. -/
theorem firstPassLines_gnd_filter (masked labeled : Grid) (cs : List Component) :
    ∀ st, firstPassLines masked labeled
        (cs.filter (fun c => !decide (pyUpper c.label = "GND"))) st =
      firstPassLines masked labeled cs st := by
  induction cs with
  | nil => intro st; rfl
  | cons c cs ih =>
    intro st
    rw [List.filter_cons]
    by_cases hg : pyUpper c.label = "GND"
    · rw [if_neg (by simp [hg])]
      rw [ih st]
      conv_rhs => rw [firstPassLines]
      rw [if_pos hg]
    · rw [if_pos (by simp [hg])]
      simp only [firstPassLines]
      rw [if_neg hg, if_neg hg, ih]

/-- Removing the `GND` components changes nothing in the adjusted pass. -/
theorem adjustedLines_gnd_filter (masked labeled : Grid) (new_map : List (Nat × Nat))
    (cs : List Component) :
    adjustedLines masked labeled new_map
        (cs.filter (fun c => !decide (pyUpper c.label = "GND"))) =
      adjustedLines masked labeled new_map cs := by
  induction cs with
  | nil => rfl
  | cons c cs ih =>
    rw [List.filter_cons]
    by_cases hg : pyUpper c.label = "GND"
    · rw [if_neg (by simp [hg])]
      rw [ih]
      conv_rhs => rw [adjustedLines]
      rw [if_pos hg]
    · rw [if_pos (by simp [hg])]
      simp only [adjustedLines]
      rw [if_neg hg, if_neg hg, ih]

end Method2

namespace Method2

/-- A component none of whose terminals resolves leaves the first-pass
state untouched and collects no nodes. -/
theorem procPoints_none (masked labeled : Grid) (ps : List (Int × Int)) :
    ∀ st, (∀ p ∈ ps, resolveTerminal masked labeled p.1 p.2 = none) →
      procPoints masked labeled ps st = (st, []) := by
  induction ps with
  | nil => intro st _; rfl
  | cons p ps ih =>
    intro st h
    simp only [procPoints]
    rw [h p (by simp)]
    exact ih st (fun q hq => h q (by simp [hq]))

/-- A component none of whose terminals resolves changes nothing in the
first pass. -/
theorem firstPassLines_skip_unresolved (masked labeled : Grid) (c : Component)
    (hc : ∀ p ∈ c.connection_points, resolveTerminal masked labeled p.1 p.2 = none) :
    ∀ (pre post : List Component) (st : Pass1State),
      firstPassLines masked labeled (pre ++ c :: post) st =
        firstPassLines masked labeled (pre ++ post) st := by
  intro pre
  induction pre with
  | nil =>
    intro post st
    simp only [List.nil_append]
    conv_lhs => rw [firstPassLines]
    by_cases hg : pyUpper c.label = "GND"
    · rw [if_pos hg]
    · rw [if_neg hg, procPoints_none masked labeled _ st hc]
      simp
  | cons q pre ih =>
    intro post st
    simp only [List.cons_append, firstPassLines]
    simp only [List.append_eq]
    by_cases hg : pyUpper q.label = "GND"
    · rw [if_pos hg, if_pos hg, ih]
    · rw [if_neg hg, if_neg hg, ih]

/-- A component none of whose terminals resolves changes nothing in the
adjusted pass. -/
theorem adjustedLines_skip_unresolved (masked labeled : Grid) (new_map : List (Nat × Nat))
    (c : Component)
    (hc : ∀ p ∈ c.connection_points, resolveTerminal masked labeled p.1 p.2 = none) :
    ∀ (pre post : List Component),
      adjustedLines masked labeled new_map (pre ++ c :: post) =
        adjustedLines masked labeled new_map (pre ++ post) := by
  intro pre
  induction pre with
  | nil =>
    intro post
    simp only [List.nil_append]
    conv_lhs => rw [adjustedLines]
    by_cases hg : pyUpper c.label = "GND"
    · rw [if_pos hg]
    · have hn : adjNodes masked labeled new_map c = [] := by
        rw [adjNodes, List.filterMap_eq_nil_iff]
        intro p hp
        rw [hc p hp]
      rw [if_neg hg, hn]
      simp
  | cons q pre ih =>
    intro post
    simp only [List.cons_append, adjustedLines]
    simp only [List.append_eq]
    by_cases hg : pyUpper q.label = "GND"
    · rw [if_pos hg, if_pos hg, ih]
    · rw [if_neg hg, if_neg hg, ih]

/-- **C2.**  The claim states that a terminal whose own center pixel is
background but whose 3×3 neighborhood contains a labeled pixel still yields
the neighboring region's node.  The code instead returns the terminal's own
coordinates as the "connection point" on a direct hit and then reads
`labeled_edges` at that center pixel: on the grid with a single wire pixel
labeled `1` at `(y, x) = (0, 1)`, the terminal `(px, py) = (1, 1)` passes
the direct test, the region lookup at the center reads label `0`, the
nearest-edge fallback is skipped, and the component is dropped — the
terminal contributes nothing. -/
theorem c2_direct_hit_reads_center_pixel :
    anyInSlice [[0, 1, 0], [0, 0, 0], [0, 0, 0]]
      (sliceLo 1) (sliceHi 3 1) (sliceLo 1) (sliceHi 3 1) = true ∧
    is_point_connected_or_nearest [[0, 1, 0], [0, 0, 0], [0, 0, 0]] 1 1 =
      (true, some (1, 1)) ∧
    pyGet2 [[0, 1, 0], [0, 0, 0], [0, 0, 0]] 0 1 = 1 ∧
    resolveTerminal [[0, 1, 0], [0, 0, 0], [0, 0, 0]]
      [[0, 1, 0], [0, 0, 0], [0, 0, 0]] 1 1 = none ∧
    method2Outputs [[0, 1, 0], [0, 0, 0], [0, 0, 0]]
      [[0, 1, 0], [0, 0, 0], [0, 0, 0]] 1 [⟨"R1", [(1, 1)]⟩] = ([], []) := by decide

/-- **C7, counterexample.**  The claim's "if and only if" fails for `GND`
components: on a 2×2 grid with region `1` at `(y, x) = (1, 1)`, the `GND`
component's terminal resolves to region `1` — which is node `1`, the same
node the emitted component `R1` lists — yet no `GND` line appears in either
output file. -/
theorem c7_counterexample :
    resolveTerminal [[0, 0], [0, 1]] [[0, 0], [0, 1]] 1 1 = some 1 ∧
    method2Outputs [[0, 0], [0, 1]] [[0, 0], [0, 1]] 1
      [⟨"R1", [(1, 1)]⟩, ⟨"GND", [(1, 1)]⟩] = ([("R1", [1])], [("R1", [1])]) := by decide

/-- **C7, amended.**  Every *non-`GND`* component appears in the emitted
netlist (in both output files) if and only if it has at least one connected
node after deduplication; each emitted line's node list is nonempty and
lists each node ID exactly once; a non-`GND` component with zero connected
nodes is silently dropped. -/
theorem c7_amended_emission_characterization (masked labeled : Grid) (num_regions : Nat)
    (components : List Component) :
    ((method2Outputs masked labeled num_regions components).1.map Prod.fst =
      (components.filter (emitted1 masked labeled)).map Component.label) ∧
    (∀ e ∈ (method2Outputs masked labeled num_regions components).1,
      e.2 ≠ [] ∧ e.2.Nodup) ∧
    ((method2Outputs masked labeled num_regions components).2.map Prod.fst =
      (components.filter (emitted2 masked labeled
        (new_region_to_node labeled num_regions
          ((firstPassLines masked labeled components ⟨[], 1⟩).2.region_to_node.map
            Prod.fst)))).map Component.label) ∧
    (∀ e ∈ (method2Outputs masked labeled num_regions components).2,
      e.2 ≠ [] ∧ e.2.Nodup) := by
  refine ⟨?_, ?_, ?_, ?_⟩
  · exact firstPassLines_labels masked labeled components ⟨[], 1⟩
  · exact firstPassLines_entries masked labeled components ⟨[], 1⟩
  · exact adjustedLines_labels masked labeled _ components
  · exact adjustedLines_entries masked labeled _ components

/-- **C8.**  A component whose label upper-cases to `"GND"` is never written
to either emitted netlist file, and the other components are unaffected:
deleting all `GND` components from the input leaves both output files (and
hence every other component's line) unchanged. -/
theorem c8_gnd_never_emitted (masked labeled : Grid) (num_regions : Nat)
    (components : List Component) :
    (∀ e ∈ (method2Outputs masked labeled num_regions components).1,
      ¬ pyUpper e.1 = "GND") ∧
    (∀ e ∈ (method2Outputs masked labeled num_regions components).2,
      ¬ pyUpper e.1 = "GND") ∧
    method2Outputs masked labeled num_regions
        (components.filter (fun c => !decide (pyUpper c.label = "GND"))) =
      method2Outputs masked labeled num_regions components := by
  refine ⟨?_, ?_, ?_⟩
  · intro e he
    have h1 : e.1 ∈ (method2Outputs masked labeled num_regions components).1.map Prod.fst :=
      List.mem_map_of_mem _ he
    rw [show (method2Outputs masked labeled num_regions components).1 =
        (firstPassLines masked labeled components ⟨[], 1⟩).1 from rfl,
      firstPassLines_labels] at h1
    obtain ⟨c, hc, hlab⟩ := List.mem_map.mp h1
    obtain ⟨-, hem⟩ := List.mem_filter.mp hc
    rw [emitted1, Bool.and_eq_true, Bool.not_eq_true', decide_eq_false_iff_not] at hem
    rw [← hlab]
    exact hem.1
  · intro e he
    have h1 : e.1 ∈ (method2Outputs masked labeled num_regions components).2.map Prod.fst :=
      List.mem_map_of_mem _ he
    rw [show (method2Outputs masked labeled num_regions components).2 =
        adjustedLines masked labeled (new_region_to_node labeled num_regions
          ((firstPassLines masked labeled components ⟨[], 1⟩).2.region_to_node.map Prod.fst))
          components from rfl,
      adjustedLines_labels] at h1
    obtain ⟨c, hc, hlab⟩ := List.mem_map.mp h1
    obtain ⟨-, hem⟩ := List.mem_filter.mp hc
    rw [emitted2, Bool.and_eq_true, Bool.not_eq_true', decide_eq_false_iff_not] at hem
    rw [← hlab]
    exact hem.1
  · simp only [method2Outputs]
    rw [firstPassLines_gnd_filter, adjustedLines_gnd_filter]

/-- **C9, counterexample.**  The claim states that a terminal with
out-of-bounds coordinates "in any direction, including negative
coordinates" is silently skipped and a component all of whose terminals are
out of bounds is dropped.  The code only checks the upper bounds: on a 2×2
grid whose single wire pixel is labeled `1` at `(y, x) = (1, 1)`, the
component whose only terminal is `(-1, -1)` is *not* dropped — the terminal
resolves (via the nearest-edge fallback, with the negative coordinates fed
into the distance computation) and the component is emitted with node `1`
in both output files. -/
theorem c9_counterexample :
    resolveTerminal [[0, 0], [0, 1]] [[0, 0], [0, 1]] (-1) (-1) = some 1 ∧
    method2Outputs [[0, 0], [0, 1]] [[0, 0], [0, 1]] 1 [⟨"R1", [(-1, -1)]⟩] =
      ([("R1", [1])], [("R1", [1])]) := by decide

/-- **C9, amended.**  A terminal whose coordinates exceed the image bounds
on the high side (`py ≥ labeled_edges.shape[0]` or
`px ≥ labeled_edges.shape[1]`) is silently skipped — it contributes no
node — and a component all of whose terminals are out of bounds on the high
side yields no connected nodes and is dropped from both output files, the
remaining output being as if the component were absent.  (Terminals with
negative coordinates are not bounds-checked: Python's wrap-around indexing
applies to them, see the counterexample.) -/
theorem c9_amended_high_out_of_bounds_skipped :
    (∀ (masked labeled : Grid) (px py : Int),
      ((labeled.length : Int) ≤ py ∨ (shape1 labeled : Int) ≤ px) →
      resolveTerminal masked labeled px py = none) ∧
    (∀ (masked labeled : Grid) (num_regions : Nat) (pre post : List Component)
      (c : Component),
      (∀ p ∈ c.connection_points,
        (labeled.length : Int) ≤ p.2 ∨ (shape1 labeled : Int) ≤ p.1) →
      method2Outputs masked labeled num_regions (pre ++ c :: post) =
        method2Outputs masked labeled num_regions (pre ++ post)) := by
  constructor
  · intro masked labeled px py h
    rw [resolveTerminal, if_pos h]
  · intro masked labeled num_regions pre post c h
    have hc : ∀ p ∈ c.connection_points, resolveTerminal masked labeled p.1 p.2 = none := by
      intro p hp
      rw [resolveTerminal, if_pos (h p hp)]
    simp only [method2Outputs]
    rw [firstPassLines_skip_unresolved masked labeled c hc,
      adjustedLines_skip_unresolved masked labeled _ c hc]

/-- Witness for C9 (amended): a concrete 2×2 grid; the terminal `(0, 5)` is
below the bottom edge and resolves to nothing, and the component `R2`,
whose only terminal `(5, 7)` is past both bounds, leaves the output of the
remaining netlist unchanged. -/
theorem c9_amended_witness :
    resolveTerminal [[0, 0], [0, 1]] [[0, 0], [0, 1]] 0 5 = none ∧
    method2Outputs [[0, 0], [0, 1]] [[0, 0], [0, 1]] 1
        ([] ++ ⟨"R2", [(5, 7)]⟩ :: [⟨"R1", [(1, 1)]⟩]) =
      method2Outputs [[0, 0], [0, 1]] [[0, 0], [0, 1]] 1 ([] ++ [⟨"R1", [(1, 1)]⟩]) :=
  ⟨c9_amended_high_out_of_bounds_skipped.1 _ _ 0 5 (by decide),
    c9_amended_high_out_of_bounds_skipped.2 _ _ 1 [] [⟨"R1", [(1, 1)]⟩] ⟨"R2", [(5, 7)]⟩
      (by decide)⟩

end Method2

namespace Method2

/-! ## Correctness of the nearest-edge fallback -/

theorem argminFirst_eq_none {α : Type} (key : α → Int) :
    ∀ l : List α, argminFirst key l = none ↔ l = [] := by
  intro l
  cases l with
  | nil => simp [argminFirst]
  | cons a rest =>
    simp only [argminFirst]
    cases argminFirst key rest with
    | none => simp
    | some b =>
      by_cases h : key b < key a <;> simp [h]

theorem argminFirst_mem {α : Type} (key : α → Int) :
    ∀ (l : List α) (a : α), argminFirst key l = some a → a ∈ l := by
  intro l
  induction l with
  | nil => intro a h; simp [argminFirst] at h
  | cons x rest ih =>
    intro a h
    simp only [argminFirst] at h
    cases hr : argminFirst key rest with
    | none =>
      rw [hr] at h
      simp at h
      simp [h]
    | some b =>
      rw [hr] at h
      dsimp only at h
      by_cases hlt : key b < key x
      · rw [if_pos hlt] at h
        simp at h
        subst h
        exact List.mem_cons_of_mem _ (ih b hr)
      · rw [if_neg hlt] at h
        simp at h
        simp [h]

theorem argminFirst_min {α : Type} (key : α → Int) :
    ∀ (l : List α) (a : α), argminFirst key l = some a → ∀ b ∈ l, key a ≤ key b := by
  intro l
  induction l with
  | nil => intro a h; simp [argminFirst] at h
  | cons x rest ih =>
    intro a h b hb
    simp only [argminFirst] at h
    cases hr : argminFirst key rest with
    | none =>
      rw [hr] at h
      simp at h
      subst h
      have : rest = [] := (argminFirst_eq_none key rest).mp hr
      subst this
      simp at hb
      subst hb
      exact le_refl _
    | some m =>
      rw [hr] at h
      dsimp only at h
      by_cases hlt : key m < key x
      · rw [if_pos hlt] at h
        simp at h
        subst h
        rcases List.mem_cons.mp hb with rfl | hb
        · exact le_of_lt hlt
        · exact ih _ hr b hb
      · rw [if_neg hlt] at h
        simp at h
        subst h
        push_neg at hlt
        rcases List.mem_cons.mp hb with rfl | hb
        · exact le_refl _
        · exact le_trans hlt (ih m hr b hb)

theorem mem_edgePoints (g : Grid) (p : Nat × Nat) :
    p ∈ edgePoints g ↔
      p.1 < g.length ∧ p.2 < (g.getD p.1 []).length ∧ 0 < (g.getD p.1 []).getD p.2 0 := by
  obtain ⟨y, x⟩ := p
  simp only [edgePoints, List.mem_flatMap, List.mem_map, List.mem_filter, List.mem_range,
    Prod.mk.injEq, decide_eq_true_eq]
  constructor
  · rintro ⟨y', hy', x', ⟨hx', hpos⟩, rfl, rfl⟩
    exact ⟨hy', hx', hpos⟩
  · rintro ⟨hy, hx, hpos⟩
    exact ⟨y, hy, x, ⟨hx, hpos⟩, rfl, rfl⟩

theorem pyGet2_natCast (g : Grid) (a b : Nat) :
    pyGet2 g (a : Int) (b : Int) = (g.getD a []).getD b 0 := by
  simp [pyGet2, pyRow, pyGet]

end Method2

namespace Method2

/-- **C6.**  For a terminal that is inside the bounds check, whose 3×3
neighborhood test finds no positive pixel, and with `labeled_edges` marking
exactly the positive pixels of `masked_edges` (the contract of
`scipy.ndimage.label`): if the mask contains any edge pixel at all, the
terminal resolves to the region label of an edge pixel whose Euclidean
distance to the terminal is minimal — that region and no other — and if the
mask contains no edge pixel, the terminal resolves to nothing and
contributes no node. -/
theorem c6_nearest_edge_fallback (masked labeled : Grid) (px py : Int)
    (hin : ¬ ((labeled.length : Int) ≤ py ∨ (shape1 labeled : Int) ≤ px))
    (hnb : anyInSlice masked (sliceLo py) (sliceHi masked.length py)
      (sliceLo px) (sliceHi (shape1 masked) px) = false)
    (hcoh : ∀ y, y < masked.length → ∀ x, x < (masked.getD y []).length →
      (0 < (labeled.getD y []).getD x 0 ↔ 0 < (masked.getD y []).getD x 0)) :
    (edgePoints masked = [] → resolveTerminal masked labeled px py = none) ∧
    (edgePoints masked ≠ [] → ∃ p ∈ edgePoints masked,
      (∀ q ∈ edgePoints masked, dist2 px py p ≤ dist2 px py q) ∧
      0 < (labeled.getD p.1 []).getD p.2 0 ∧
      resolveTerminal masked labeled px py =
        some ((labeled.getD p.1 []).getD p.2 0)) := by
  constructor
  · intro hemp
    have hip : is_point_connected_or_nearest masked px py = (false, none) := by
      rw [is_point_connected_or_nearest, if_neg (by simp [hnb]), find_nearest_edge, hemp]
      rfl
    rw [resolveTerminal, if_neg hin, hip]
  · intro hne
    cases hfind : argminFirst (dist2 px py) (edgePoints masked) with
    | none => exact absurd ((argminFirst_eq_none _ _).mp hfind) hne
    | some p =>
      have hmem : p ∈ edgePoints masked := argminFirst_mem _ _ _ hfind
      obtain ⟨hy, hx, hpos⟩ := (mem_edgePoints masked p).mp hmem
      have hip : is_point_connected_or_nearest masked px py =
          (true, some ((p.2 : Int), (p.1 : Int))) := by
        rw [is_point_connected_or_nearest, if_neg (by simp [hnb]), find_nearest_edge, hfind]
      have hlpos : 0 < (labeled.getD p.1 []).getD p.2 0 :=
        (hcoh p.1 hy p.2 hx).mpr hpos
      refine ⟨p, hmem, argminFirst_min _ _ _ hfind, hlpos, ?_⟩
      rw [resolveTerminal, if_neg hin, hip]
      dsimp only
      rw [pyGet2_natCast]
      rw [if_pos hlpos]

/-- Witness for C6: the 1×6 grid `[[1,0,0,0,0,0]]` with the terminal at
`(px, py) = (4, 0)`, four pixels from the single wire pixel and with an
all-background 3×3 neighborhood. -/
theorem c6_witness :
    (edgePoints [[1, 0, 0, 0, 0, 0]] = [] →
      resolveTerminal [[1, 0, 0, 0, 0, 0]] [[1, 0, 0, 0, 0, 0]] 4 0 = none) ∧
    (edgePoints [[1, 0, 0, 0, 0, 0]] ≠ [] → ∃ p ∈ edgePoints [[1, 0, 0, 0, 0, 0]],
      (∀ q ∈ edgePoints [[1, 0, 0, 0, 0, 0]], dist2 4 0 p ≤ dist2 4 0 q) ∧
      0 < (([[1, 0, 0, 0, 0, 0]] : Grid).getD p.1 []).getD p.2 0 ∧
      resolveTerminal [[1, 0, 0, 0, 0, 0]] [[1, 0, 0, 0, 0, 0]] 4 0 =
        some ((([[1, 0, 0, 0, 0, 0]] : Grid).getD p.1 []).getD p.2 0)) :=
  c6_nearest_edge_fallback [[1, 0, 0, 0, 0, 0]] [[1, 0, 0, 0, 0, 0]] 4 0
    (by decide) (by decide) (by decide)

end Method2

namespace Method2

/-! ## Properties of the stable sort and of the pixel lists -/

theorem insSorted_perm {α : Type} (le : α → α → Bool) (a : α) :
    ∀ l : List α, (insSorted le a l).Perm (a :: l) := by
  intro l
  induction l with
  | nil => simp [insSorted]
  | cons b bs ih =>
    simp only [insSorted]
    by_cases h : le a b
    · rw [if_pos h]
    · rw [if_neg h]
      exact (List.Perm.cons b ih).trans (List.Perm.swap a b bs)

theorem stableSort_perm {α : Type} (le : α → α → Bool) :
    ∀ l : List α, (stableSort le l).Perm l := by
  intro l
  induction l with
  | nil => simp [stableSort]
  | cons a as ih =>
    simp only [stableSort]
    exact (insSorted_perm le a _).trans (List.Perm.cons a ih)

theorem insSorted_pairwise {α : Type} (le : α → α → Bool)
    (htot : ∀ a b, le a b = true ∨ le b a = true)
    (htrans : ∀ a b c, le a b = true → le b c = true → le a c = true) (a : α) :
    ∀ l : List α, l.Pairwise (fun x y => le x y = true) →
      (insSorted le a l).Pairwise (fun x y => le x y = true) := by
  intro l
  induction l with
  | nil => intro _; simp [insSorted]
  | cons b bs ih =>
    intro hp
    obtain ⟨hb, hbs⟩ := List.pairwise_cons.mp hp
    simp only [insSorted]
    by_cases h : le a b
    · rw [if_pos h]
      refine List.pairwise_cons.mpr ⟨?_, hp⟩
      intro y hy
      rcases List.mem_cons.mp hy with rfl | hy
      · exact h
      · exact htrans a b y h (hb y hy)
    · rw [if_neg h]
      refine List.pairwise_cons.mpr ⟨?_, ih hbs⟩
      intro y hy
      have hy' : y ∈ a :: bs := (insSorted_perm le a bs).mem_iff.mp hy
      rcases List.mem_cons.mp hy' with hya | hy'
      · subst hya
        rcases htot y b with h1 | h1
        · exact absurd h1 h
        · exact h1
      · exact hb y hy'

theorem stableSort_pairwise {α : Type} (le : α → α → Bool)
    (htot : ∀ a b, le a b = true ∨ le b a = true)
    (htrans : ∀ a b c, le a b = true → le b c = true → le a c = true) :
    ∀ l : List α, (stableSort le l).Pairwise (fun x y => le x y = true) := by
  intro l
  induction l with
  | nil => simp [stableSort]
  | cons a as ih =>
    simp only [stableSort]
    exact insSorted_pairwise le htot htrans a _ ih

/-- The head of a sorted list is `le` everything in the list. -/
theorem sorted_head_min {α : Type} (le : α → α → Bool) (hrefl : ∀ a, le a a = true)
    {l : List α} (hp : l.Pairwise (fun x y => le x y = true)) {h : α}
    (hh : l.head? = some h) : ∀ b ∈ l, le h b = true := by
  cases l with
  | nil => simp at hh
  | cons x xs =>
    simp only [List.head?_cons, Option.some.injEq] at hh
    subst hh
    intro b hb
    rcases List.mem_cons.mp hb with rfl | hb
    · exact hrefl b
    · exact (List.pairwise_cons.mp hp).1 b hb

theorem lexLe_refl (a : Nat × Nat) : lexLe a a = true := by
  simp [lexLe]

theorem lexLe_total (a b : Nat × Nat) : lexLe a b = true ∨ lexLe b a = true := by
  simp only [lexLe, Bool.or_eq_true, Bool.and_eq_true, decide_eq_true_eq]
  omega

theorem lexLe_trans (a b c : Nat × Nat) :
    lexLe a b = true → lexLe b c = true → lexLe a c = true := by
  simp only [lexLe, Bool.or_eq_true, Bool.and_eq_true, decide_eq_true_eq]
  omega

theorem lexLe_antisymm_strict {a b : Nat × Nat} (h : lexLe a b = true) (hne : a ≠ b) :
    a.1 < b.1 ∨ (a.1 = b.1 ∧ a.2 < b.2) := by
  simp only [lexLe, Bool.or_eq_true, Bool.and_eq_true, decide_eq_true_eq] at h
  have : ¬(a.1 = b.1 ∧ a.2 = b.2) := by
    intro hc
    exact hne (Prod.ext hc.1 hc.2)
  omega

theorem mem_pixelsOf (g : Grid) (region : Nat) (p : Nat × Nat) :
    p ∈ pixelsOf g region ↔
      p.1 < g.length ∧ p.2 < (g.getD p.1 []).length ∧ (g.getD p.1 []).getD p.2 0 = region := by
  obtain ⟨y, x⟩ := p
  simp only [pixelsOf, List.mem_flatMap, List.mem_map, List.mem_filter, List.mem_range,
    Prod.mk.injEq, decide_eq_true_eq]
  constructor
  · rintro ⟨y', hy', x', ⟨hx', hval⟩, rfl, rfl⟩
    exact ⟨hy', hx', hval⟩
  · rintro ⟨hy, hx, hval⟩
    exact ⟨y, hy, x, ⟨hx, hval⟩, rfl, rfl⟩

/-- A pixel belongs to at most one region. -/
theorem pixelsOf_disjoint (g : Grid) {r s : Nat} {p : Nat × Nat}
    (hr : p ∈ pixelsOf g r) (hs : p ∈ pixelsOf g s) : r = s := by
  obtain ⟨-, -, h1⟩ := (mem_pixelsOf g r p).mp hr
  obtain ⟨-, -, h2⟩ := (mem_pixelsOf g s p).mp hs
  rw [h1] at h2
  exact h2

end Method2

namespace Method2

theorem stableSort_eq_nil {α : Type} (le : α → α → Bool) (l : List α) :
    stableSort le l = [] ↔ l = [] := by
  constructor
  · intro h
    have := (stableSort_perm le l).length_eq
    rw [h] at this
    simpa using (List.length_eq_zero.mp this.symm)
  · intro h
    subst h
    rfl

/-- The top-left pixel exists exactly for regions with at least one pixel,
is itself a pixel of the region, and is row-major-minimal among them. -/
theorem top_left_pixel_spec (labeled : Grid) (region : Nat) (p : Nat × Nat)
    (h : top_left_pixel labeled region = some p) :
    p ∈ pixelsOf labeled region ∧ ∀ q ∈ pixelsOf labeled region, lexLe p q = true := by
  have hperm := stableSort_perm lexLe (pixelsOf labeled region)
  have hmem : p ∈ stableSort lexLe (pixelsOf labeled region) := by
    cases hl : stableSort lexLe (pixelsOf labeled region) with
    | nil => rw [top_left_pixel, hl] at h; simp at h
    | cons x xs =>
      rw [top_left_pixel, hl] at h
      simp only [List.head?_cons, Option.some.injEq] at h
      subst h
      simp
  constructor
  · exact hperm.mem_iff.mp hmem
  · intro q hq
    exact sorted_head_min lexLe lexLe_refl
      (stableSort_pairwise lexLe lexLe_total lexLe_trans _) h q (hperm.mem_iff.mpr hq)

theorem top_left_pixel_eq_none (labeled : Grid) (region : Nat) :
    top_left_pixel labeled region = none ↔ pixelsOf labeled region = [] := by
  rw [top_left_pixel, List.head?_eq_none_iff, stableSort_eq_nil]

theorem region_top_left_mem (labeled : Grid) (num_regions : Nat) (region : Nat)
    (p : Nat × Nat) :
    (region, p) ∈ region_top_left labeled num_regions ↔
      (1 ≤ region ∧ region < 1 + num_regions) ∧ top_left_pixel labeled region = some p := by
  simp only [region_top_left, List.mem_filterMap, List.mem_range'_1]
  constructor
  · rintro ⟨a, ha, hm⟩
    cases hh : top_left_pixel labeled a with
    | none => rw [hh] at hm; simp at hm
    | some q =>
      rw [hh] at hm
      simp only [Option.some.injEq, Prod.mk.injEq] at hm
      obtain ⟨rfl, rfl⟩ := hm
      exact ⟨ha, hh⟩
  · rintro ⟨ha, htl⟩
    refine ⟨region, ha, ?_⟩
    rw [htl]

theorem region_top_left_keys (labeled : Grid) (num_regions : Nat) :
    (region_top_left labeled num_regions).map Prod.fst =
      (List.range' 1 num_regions).filter (fun r => !(pixelsOf labeled r).isEmpty) := by
  rw [region_top_left]
  induction List.range' 1 num_regions with
  | nil => rfl
  | cons a xs ih =>
    rw [List.filterMap_cons, List.filter_cons]
    cases hh : top_left_pixel labeled a with
    | none =>
      have hemp : (pixelsOf labeled a).isEmpty = true := by
        rw [List.isEmpty_iff]
        exact (top_left_pixel_eq_none labeled a).mp hh
      rw [hemp]
      simpa using ih
    | some q =>
      have hemp : (pixelsOf labeled a).isEmpty = false := by
        rw [Bool.eq_false_iff]
        intro hc
        rw [List.isEmpty_iff] at hc
        rw [(top_left_pixel_eq_none labeled a).mpr hc] at hh
        exact Option.noConfusion hh
      rw [hemp]
      simp only [Bool.not_false, if_true, List.map_cons]
      rw [ih]

theorem region_top_left_keys_nodup (labeled : Grid) (num_regions : Nat) :
    ((region_top_left labeled num_regions).map Prod.fst).Nodup := by
  rw [region_top_left_keys]
  exact (List.nodup_range' 1 num_regions).filter _

/-- Every entry of `sorted_regions` pairs a region with its top-left
pixel. -/
theorem sorted_regions_entry (labeled : Grid) (num_regions : Nat) (e : Nat × (Nat × Nat))
    (he : e ∈ sorted_regions labeled num_regions) :
    top_left_pixel labeled e.1 = some e.2 := by
  have hmem : e ∈ region_top_left labeled num_regions :=
    (stableSort_perm _ _).mem_iff.mp he
  obtain ⟨y, x⟩ := e
  exact ((region_top_left_mem labeled num_regions y x).mp hmem).2

theorem sorted_regions_keys_nodup (labeled : Grid) (num_regions : Nat) :
    ((sorted_regions labeled num_regions).map Prod.fst).Nodup := by
  have hperm : ((sorted_regions labeled num_regions).map Prod.fst).Perm
      ((region_top_left labeled num_regions).map Prod.fst) :=
    (stableSort_perm _ _).map Prod.fst
  exact hperm.nodup_iff.mpr (region_top_left_keys_nodup labeled num_regions)

theorem sorted_regions_sorted (labeled : Grid) (num_regions : Nat) :
    (sorted_regions labeled num_regions).Pairwise (fun a b => lexLe a.2 b.2 = true) :=
  stableSort_pairwise _ (fun (a b : Nat × (Nat × Nat)) => lexLe_total a.2 b.2)
    (fun (a b c : Nat × (Nat × Nat)) => lexLe_trans a.2 b.2 c.2) _

theorem sorted_regions_mem_iff (labeled : Grid) (num_regions : Nat) (r : Nat) :
    r ∈ (sorted_regions labeled num_regions).map Prod.fst ↔
      (1 ≤ r ∧ r < 1 + num_regions) ∧ pixelsOf labeled r ≠ [] := by
  have hperm : ((sorted_regions labeled num_regions).map Prod.fst).Perm
      ((region_top_left labeled num_regions).map Prod.fst) :=
    (stableSort_perm _ _).map Prod.fst
  rw [hperm.mem_iff, region_top_left_keys, List.mem_filter, List.mem_range'_1]
  simp [List.isEmpty_iff]

end Method2

namespace Method2

/-- The new node IDs are handed out consecutively, starting at the given
counter, in the order of the sorted region list. -/
theorem new_region_to_node_from_values (touched : List Nat) :
    ∀ (l : List (Nat × (Nat × Nat))) (next : Nat),
      (new_region_to_node_from l touched next).map Prod.snd =
        List.range' next (new_region_to_node_from l touched next).length := by
  intro l
  induction l with
  | nil => intro next; rfl
  | cons rp rest ih =>
    intro next
    simp only [new_region_to_node_from]
    by_cases h : touched.contains rp.1
    · rw [if_pos h]
      simp only [List.map_cons, List.length_cons, List.range'_succ]
      rw [ih]
    · rw [if_neg h]
      exact ih next

/-- A region receives a new node ID exactly when it occurs in the sorted
region list and was touched. -/
theorem new_region_to_node_from_keys (touched : List Nat) (r : Nat) :
    ∀ (l : List (Nat × (Nat × Nat))) (next : Nat),
      (r ∈ (new_region_to_node_from l touched next).map Prod.fst ↔
        r ∈ l.map Prod.fst ∧ r ∈ touched) := by
  intro l
  induction l with
  | nil => intro next; simp [new_region_to_node_from]
  | cons rp rest ih =>
    intro next
    simp only [new_region_to_node_from]
    by_cases h : touched.contains rp.1
    · rw [if_pos h]
      simp only [List.map_cons, List.mem_cons, ih]
      constructor
      · rintro (rfl | ⟨h1, h2⟩)
        · exact ⟨Or.inl rfl, by simpa using h⟩
        · exact ⟨Or.inr h1, h2⟩
      · rintro ⟨rfl | h1, h2⟩
        · exact Or.inl rfl
        · exact Or.inr ⟨h1, h2⟩
    · rw [if_neg h]
      rw [ih]
      simp only [List.map_cons, List.mem_cons]
      constructor
      · rintro ⟨h1, h2⟩
        exact ⟨Or.inr h1, h2⟩
      · rintro ⟨rfl | h1, h2⟩
        · exact absurd (by simpa using h2) h
        · exact ⟨h1, h2⟩

/-- Any pairwise property of the keys survives the ID assignment. -/
theorem new_region_to_node_from_pairwise (touched : List Nat)
    (Q : Nat → Nat → Prop) :
    ∀ (l : List (Nat × (Nat × Nat))) (next : Nat),
      l.Pairwise (fun a b => Q a.1 b.1) →
      (new_region_to_node_from l touched next).Pairwise (fun a b => Q a.1 b.1) := by
  intro l
  induction l with
  | nil => intro next _; simp [new_region_to_node_from]
  | cons rp rest ih =>
    intro next hp
    obtain ⟨hhead, htail⟩ := List.pairwise_cons.mp hp
    simp only [new_region_to_node_from]
    by_cases h : touched.contains rp.1
    · rw [if_pos h]
      refine List.pairwise_cons.mpr ⟨?_, ih _ htail⟩
      intro e he
      have : e.1 ∈ rest.map Prod.fst :=
        ((new_region_to_node_from_keys touched e.1 rest _).mp
          (List.mem_map_of_mem _ he)).1
      obtain ⟨e', he', heq⟩ := List.mem_map.mp this
      have := hhead e' he'
      rw [heq] at this
      exact this
    · rw [if_neg h]
      exact ih _ htail

/-- The ID assignment depends on the touched set only through membership. -/
theorem new_region_to_node_from_congr (t₁ t₂ : List Nat)
    (h : ∀ r, r ∈ t₁ ↔ r ∈ t₂) :
    ∀ (l : List (Nat × (Nat × Nat))) (next : Nat),
      new_region_to_node_from l t₁ next = new_region_to_node_from l t₂ next := by
  intro l
  induction l with
  | nil => intro next; rfl
  | cons rp rest ih =>
    intro next
    simp only [new_region_to_node_from]
    by_cases hc : t₁.contains rp.1
    · rw [if_pos hc, if_pos (by simpa using (h rp.1).mp (by simpa using hc)), ih]
    · rw [if_neg hc, if_neg ?_, ih]
      intro hc2
      exact hc (by simpa using (h rp.1).mpr (by simpa using hc2))

end Method2

namespace Method2

theorem lookup_isSome_iff {β : Type} (al : List (Nat × β)) (k : Nat) :
    (List.lookup k al).isSome = true ↔ k ∈ al.map Prod.fst := by
  induction al with
  | nil => simp [List.lookup]
  | cons e es ih =>
    obtain ⟨k', v⟩ := e
    rw [List.lookup_cons]
    by_cases h : k' = k
    · subst h
      simp
    · rw [show (k == k') = false from beq_eq_false_iff_ne.mpr (Ne.symm h)]
      dsimp only
      rw [ih]
      simp [Ne.symm h]

/-- The keys of `region_to_node` after processing one component's terminals
are the old keys plus the regions its terminals resolve to. -/
theorem procPoints_keys (masked labeled : Grid) (ps : List (Int × Int)) :
    ∀ (st : Pass1State) (r : Nat),
      (r ∈ ((procPoints masked labeled ps st).1).region_to_node.map Prod.fst ↔
        r ∈ st.region_to_node.map Prod.fst ∨
          r ∈ ps.filterMap (fun p => resolveTerminal masked labeled p.1 p.2)) := by
  induction ps with
  | nil => intro st r; simp [procPoints]
  | cons p ps ih =>
    intro st r
    simp only [procPoints, List.filterMap_cons]
    cases hres : resolveTerminal masked labeled p.1 p.2 with
    | none => exact ih st r
    | some region =>
      dsimp only
      by_cases hl : (List.lookup region st.region_to_node).isSome
      · rw [if_pos hl]
        rw [ih st r]
        have hreg : region ∈ st.region_to_node.map Prod.fst :=
          (lookup_isSome_iff _ _).mp hl
        simp only [List.mem_cons]
        constructor
        · rintro (h | h)
          · exact Or.inl h
          · exact Or.inr (Or.inr h)
        · rintro (h | rfl | h)
          · exact Or.inl h
          · exact Or.inl hreg
          · exact Or.inr h
      · rw [if_neg hl]
        rw [ih _ r]
        simp only [List.map_append, List.mem_append, List.map_cons, List.map_nil,
          List.mem_singleton, List.mem_cons, List.mem_nil_iff, or_false]
        constructor
        · rintro ((h | rfl) | h)
          · exact Or.inl h
          · exact Or.inr (Or.inl rfl)
          · exact Or.inr (Or.inr h)
        · rintro (h | rfl | h)
          · exact Or.inl (Or.inl h)
          · exact Or.inl (Or.inr rfl)
          · exact Or.inr h

/-- The keys of `region_to_node` after the whole first pass are the regions
touched by some terminal of some non-`GND` component. -/
theorem firstPassLines_keys (masked labeled : Grid) (cs : List Component) :
    ∀ (st : Pass1State) (r : Nat),
      (r ∈ ((firstPassLines masked labeled cs st).2).region_to_node.map Prod.fst ↔
        r ∈ st.region_to_node.map Prod.fst ∨
          ∃ c ∈ cs, ¬(pyUpper c.label = "GND") ∧ r ∈ connectedRegions masked labeled c) := by
  induction cs with
  | nil => intro st r; simp [firstPassLines]
  | cons c cs ih =>
    intro st r
    simp only [firstPassLines]
    by_cases hg : pyUpper c.label = "GND"
    · rw [if_pos hg, ih]
      simp only [List.mem_cons]
      constructor
      · rintro (h | ⟨c', hc', hd⟩)
        · exact Or.inl h
        · exact Or.inr ⟨c', Or.inr hc', hd⟩
      · rintro (h | ⟨c', rfl | hc', hd⟩)
        · exact Or.inl h
        · exact absurd hg hd.1
        · exact Or.inr ⟨c', hc', hd⟩
    · rw [if_neg hg]
      dsimp only
      rw [ih, procPoints_keys]
      simp only [List.mem_cons]
      constructor
      · rintro ((h | h) | ⟨c', hc', hd⟩)
        · exact Or.inl h
        · exact Or.inr ⟨c, Or.inl rfl, hg, h⟩
        · exact Or.inr ⟨c', Or.inr hc', hd⟩
      · rintro (h | ⟨c', rfl | hc', hd⟩)
        · exact Or.inl (Or.inl h)
        · exact Or.inl (Or.inr hd.2)
        · exact Or.inr ⟨c', hc', hd⟩

theorem getD_pos {row : List Nat} {n : Nat} (h : 0 < row.getD n 0) : n < row.length := by
  by_contra hc
  push_neg at hc
  rw [List.getD_eq_default _ _ hc] at h
  exact Nat.lt_irrefl 0 h

theorem pyGet_pos {row : List Nat} {i : Int} (h : 0 < pyGet row i) :
    ∃ b, b < row.length ∧ row.getD b 0 = pyGet row i := by
  rw [pyGet] at h ⊢
  by_cases h0 : 0 ≤ i
  · rw [if_pos h0] at h ⊢
    exact ⟨i.toNat, getD_pos h, rfl⟩
  · rw [if_neg h0] at h ⊢
    by_cases h1 : (-i).toNat ≤ row.length
    · rw [if_pos h1] at h ⊢
      exact ⟨row.length - (-i).toNat, getD_pos h, rfl⟩
    · rw [if_neg h1] at h
      exact absurd h (by simp)

theorem pyGet2_pos {g : Grid} {y x : Int} (h : 0 < pyGet2 g y x) :
    ∃ a b, a < g.length ∧ b < (g.getD a []).length ∧
      (g.getD a []).getD b 0 = pyGet2 g y x := by
  rw [pyGet2, pyRow] at h ⊢
  by_cases h0 : 0 ≤ y
  · rw [if_pos h0] at h ⊢
    have ha : y.toNat < g.length := by
      by_contra hc
      push_neg at hc
      rw [List.getD_eq_default _ _ hc] at h
      simp [pyGet] at h
    obtain ⟨b, hb, hbv⟩ := pyGet_pos h
    exact ⟨y.toNat, b, ha, hb, hbv⟩
  · rw [if_neg h0] at h ⊢
    by_cases h1 : (-y).toNat ≤ g.length
    · rw [if_pos h1] at h ⊢
      have hy1 : 1 ≤ (-y).toNat := by omega
      have ha : g.length - (-y).toNat < g.length := by omega
      obtain ⟨b, hb, hbv⟩ := pyGet_pos h
      exact ⟨g.length - (-y).toNat, b, ha, hb, hbv⟩
    · rw [if_neg h1] at h
      exact absurd h (by simp [pyGet, ite_self])

end Method2

namespace Method2

/-- A resolved region label is positive and is the value of an actual cell
of `labeled_edges`. -/
theorem resolveTerminal_some {masked labeled : Grid} {px py : Int} {r : Nat}
    (h : resolveTerminal masked labeled px py = some r) :
    0 < r ∧ ∃ a b, a < labeled.length ∧ b < (labeled.getD a []).length ∧
      (labeled.getD a []).getD b 0 = r := by
  rw [resolveTerminal] at h
  split at h
  · exact absurd h (by simp)
  · split at h
    · dsimp only at h
      split at h
      · next hpos =>
        rw [Option.some.injEq] at h
        subst h
        exact ⟨hpos, pyGet2_pos hpos⟩
      · exact absurd h (by simp)
    · exact absurd h (by simp)

/-- **C5.**  With `labeled_edges` carrying labels at most `num_regions`
(the contract of `scipy.ndimage.label`), the second, deterministic pass:
(a) the first pass touches exactly the regions some terminal of some
non-`GND` component resolves to; (b) exactly the touched regions receive
final node IDs; (c) the final IDs are the consecutive integers `1, 2, 3, …`
in the order of the map; (d) that order is ascending in the regions'
top-left-most pixels under row-major comparison (top row first, then left
column); (e) a region's top-left pixel is a pixel of the region and
row-major-minimal among them; and (f) the reassignment depends on the
touched regions only through set membership — hence not on the order in
which components or terminals were processed. -/
theorem c5_second_pass_renumbering (masked labeled : Grid) (num_regions : Nat)
    (components : List Component) (touched : List Nat)
    (hbound : ∀ y, y < labeled.length → ∀ x, x < (labeled.getD y []).length →
      (labeled.getD y []).getD x 0 ≤ num_regions)
    (htouched : touched =
      ((firstPassLines masked labeled components ⟨[], 1⟩).2).region_to_node.map Prod.fst) :
    (∀ r, r ∈ touched ↔
      ∃ c ∈ components, ¬(pyUpper c.label = "GND") ∧
        r ∈ connectedRegions masked labeled c) ∧
    (∀ r, r ∈ (new_region_to_node labeled num_regions touched).map Prod.fst ↔
      r ∈ touched) ∧
    ((new_region_to_node labeled num_regions touched).map Prod.snd =
      List.range' 1 (new_region_to_node labeled num_regions touched).length) ∧
    ((new_region_to_node labeled num_regions touched).Pairwise (fun a b =>
      ∃ pa pb, top_left_pixel labeled a.1 = some pa ∧
        top_left_pixel labeled b.1 = some pb ∧
        (pa.1 < pb.1 ∨ (pa.1 = pb.1 ∧ pa.2 < pb.2)))) ∧
    (∀ r p, top_left_pixel labeled r = some p →
      p ∈ pixelsOf labeled r ∧ ∀ q ∈ pixelsOf labeled r, lexLe p q = true) ∧
    (∀ t₁ t₂ : List Nat, (∀ r, r ∈ t₁ ↔ r ∈ t₂) →
      new_region_to_node labeled num_regions t₁ =
        new_region_to_node labeled num_regions t₂) := by
  have htch : ∀ r, r ∈ touched ↔
      ∃ c ∈ components, ¬(pyUpper c.label = "GND") ∧
        r ∈ connectedRegions masked labeled c := by
    intro r
    rw [htouched, firstPassLines_keys]
    simp
  refine ⟨htch, ?_, ?_, ?_, ?_, ?_⟩
  · -- exactly the touched regions receive final IDs
    intro r
    rw [new_region_to_node, new_region_to_node_from_keys]
    constructor
    · rintro ⟨-, h2⟩
      exact h2
    · intro hr
      refine ⟨?_, hr⟩
      -- a touched region occurs among the sorted regions
      obtain ⟨c, -, -, hd⟩ := (htch r).mp hr
      obtain ⟨p, -, hres⟩ := List.mem_filterMap.mp hd
      obtain ⟨hpos, a, b, ha, hb, hval⟩ := resolveTerminal_some hres
      rw [sorted_regions_mem_iff]
      refine ⟨⟨hpos, ?_⟩, ?_⟩
      · have := hbound a ha b hb
        omega
      · refine List.ne_nil_of_mem (a := (a, b)) ?_
        rw [mem_pixelsOf]
        exact ⟨ha, hb, hval⟩
  · exact new_region_to_node_from_values touched _ 1
  · -- ascending top-left pixels
    have hsorted := sorted_regions_sorted labeled num_regions
    have hne : (sorted_regions labeled num_regions).Pairwise (fun a b => a.1 ≠ b.1) :=
      List.pairwise_map.mp (sorted_regions_keys_nodup labeled num_regions)
    have hcomb := hsorted.and hne
    have hq : (sorted_regions labeled num_regions).Pairwise (fun a b =>
        ∃ pa pb, top_left_pixel labeled a.1 = some pa ∧
          top_left_pixel labeled b.1 = some pb ∧
          (pa.1 < pb.1 ∨ (pa.1 = pb.1 ∧ pa.2 < pb.2))) := by
      refine List.Pairwise.imp_of_mem ?_ hcomb
      intro a b ha hb hab
      obtain ⟨hle, hfst⟩ := hab
      have hta := sorted_regions_entry labeled num_regions a ha
      have htb := sorted_regions_entry labeled num_regions b hb
      refine ⟨a.2, b.2, hta, htb, ?_⟩
      have hnp : a.2 ≠ b.2 := by
        intro hc
        refine hfst (pixelsOf_disjoint labeled
          ((top_left_pixel_spec labeled a.1 a.2 hta).1) ?_)
        rw [hc]
        exact (top_left_pixel_spec labeled b.1 b.2 htb).1
      exact lexLe_antisymm_strict hle hnp
    exact new_region_to_node_from_pairwise touched
      (fun r₁ r₂ => ∃ pa pb, top_left_pixel labeled r₁ = some pa ∧
        top_left_pixel labeled r₂ = some pb ∧
        (pa.1 < pb.1 ∨ (pa.1 = pb.1 ∧ pa.2 < pb.2))) _ 1 hq
  · intro r p hp
    exact top_left_pixel_spec labeled r p hp
  · intro t₁ t₂ h
    rw [new_region_to_node, new_region_to_node, new_region_to_node_from_congr t₁ t₂ h]

end Method2

namespace Method2

/-- Witness for C5: a 2×2 image with two one-pixel regions (label 2 at
`(0, 1)`, label 1 at `(1, 0)`) and one component touching both; region 2 is
top-left-most and receives final node ID 1, region 1 receives 2. -/
theorem c5_witness :
    (∀ r, r ∈ ([1, 2] : List Nat) ↔
      ∃ c ∈ [(⟨"R1", [(0, 1), (1, 0)]⟩ : Component)], ¬(pyUpper c.label = "GND") ∧
        r ∈ connectedRegions [[0, 1], [1, 0]] [[0, 2], [1, 0]] c) ∧
    (∀ r, r ∈ (new_region_to_node [[0, 2], [1, 0]] 2 [1, 2]).map Prod.fst ↔
      r ∈ ([1, 2] : List Nat)) ∧
    ((new_region_to_node [[0, 2], [1, 0]] 2 [1, 2]).map Prod.snd =
      List.range' 1 (new_region_to_node [[0, 2], [1, 0]] 2 [1, 2]).length) ∧
    ((new_region_to_node [[0, 2], [1, 0]] 2 [1, 2]).Pairwise (fun a b =>
      ∃ pa pb, top_left_pixel [[0, 2], [1, 0]] a.1 = some pa ∧
        top_left_pixel [[0, 2], [1, 0]] b.1 = some pb ∧
        (pa.1 < pb.1 ∨ (pa.1 = pb.1 ∧ pa.2 < pb.2)))) ∧
    (∀ r p, top_left_pixel [[0, 2], [1, 0]] r = some p →
      p ∈ pixelsOf [[0, 2], [1, 0]] r ∧
        ∀ q ∈ pixelsOf [[0, 2], [1, 0]] r, lexLe p q = true) ∧
    (∀ t₁ t₂ : List Nat, (∀ r, r ∈ t₁ ↔ r ∈ t₂) →
      new_region_to_node [[0, 2], [1, 0]] 2 t₁ =
        new_region_to_node [[0, 2], [1, 0]] 2 t₂) :=
  c5_second_pass_renumbering [[0, 1], [1, 0]] [[0, 2], [1, 0]] 2
    [⟨"R1", [(0, 1), (1, 0)]⟩] [1, 2] (by decide) (by decide)

end Method2
